import Mathlib

/-!
Verification development for the `feature_websearch` repository.

The repository contains three Python source files:
  * `websearch.py` — `WebScraper` (sequential BFS crawler) and `SearchEngine`
    (substring search with context snippets over the scraped corpus);
  * `advanced/smart_search.py` — `OllamaWebCrawlerService` (recursive crawler
    backed by a SQLite store and an optional Ollama LLM capability);
  * `websearch_specific.py` — `scrape_portal` (single-page targeted extraction).

External collaborators (the HTTP transport, the BeautifulSoup parse tree,
Python's string primitives, `urllib.parse`) are embedded as explicit Lean
data and functions; the repository's own logic is translated line by line.
-/

namespace PyStr

/-- Model of Python's `str.lower()` on a single character (ASCII case fold,
which is all the repository's inputs exercise). -/
def lowerChar (c : Char) : Char := c.toLower

/-- Model of Python's `str.lower()`: strings are modelled as `List Char`. -/
def pyLower (s : List Char) : List Char := s.map lowerChar

/-- Model of Python's `str.find(needle)` returning the first index at which
`needle` occurs in `hay`, or `none` where Python returns `-1`. -/
def pyFind (hay needle : List Char) : Option Nat :=
  match hay with
  | [] => if needle = [] then some 0 else none
  | _ :: t =>
    if needle.isPrefixOf hay then some 0
    else (pyFind t needle).map (· + 1)

/-- Model of Python's `needle in hay` substring test. -/
def pyContains (hay needle : List Char) : Bool := (pyFind hay needle).isSome

/-- Whether `needle` occurs in `hay` starting exactly at index `i`. -/
def occursAt (hay needle : List Char) (i : Nat) : Bool :=
  needle.isPrefixOf (hay.drop i)

/-- Model of the Python slice `s[a:b]` for already-clamped natural bounds. -/
def pySlice (s : List Char) (a b : Nat) : List Char := (s.drop a).take (b - a)

/-- Model of Python's `str.split(sep)` for a one-character separator:
`"".split(",") == [""]`, and every separator occurrence cuts. -/
def pySplitOn (sep : Char) : List Char → List (List Char)
  | [] => [[]]
  | c :: t =>
    match pySplitOn sep t with
    | [] => if c = sep then [[], []] else [[c]]
    | h :: r => if c = sep then [] :: h :: r else (c :: h) :: r

/-- Model of Python's `str.strip()`: drop leading and trailing whitespace. -/
def pyStrip (s : List Char) : List Char :=
  ((s.dropWhile Char.isWhitespace).reverse.dropWhile Char.isWhitespace).reverse

theorem pyLower_length (s : List Char) : (pyLower s).length = s.length := by
  simp [pyLower]

theorem pyFind_occursAt (hay needle : List Char) (i : Nat)
    (h : pyFind hay needle = some i) : occursAt hay needle i = true := by
  induction hay generalizing i with
  | nil =>
    simp only [pyFind] at h
    split at h
    · rename_i hn
      cases h
      simp [occursAt, hn, List.isPrefixOf]
    · cases h
  | cons c t ih =>
    simp only [pyFind] at h
    split at h
    · rename_i hp
      cases h
      simpa [occursAt] using hp
    · rcases Option.map_eq_some'.mp h with ⟨j, hj, rfl⟩
      simpa [occursAt] using ih j hj

theorem pyFind_first (hay needle : List Char) (i : Nat)
    (h : pyFind hay needle = some i) :
    ∀ j, j < i → occursAt hay needle j = false := by
  induction hay generalizing i with
  | nil =>
    intro j hj
    simp only [pyFind] at h
    split at h
    · cases h; omega
    · cases h
  | cons c t ih =>
    intro j hj
    simp only [pyFind] at h
    split at h
    · cases h; omega
    · rename_i hp
      rcases Option.map_eq_some'.mp h with ⟨i', hi', rfl⟩
      match j with
      | 0 =>
        simp only [occursAt, List.drop_zero]
        exact Bool.not_eq_true _ ▸ (by simpa using hp)
      | j' + 1 =>
        have := ih i' hi' j' (by omega)
        simpa [occursAt] using this

end PyStr

/-- Model of a parsed URL as produced by `urllib.parse.urlparse`: the fields
the repository reads (`scheme`, `netloc` = `host`, `path`, `query`,
`fragment`). -/
structure URL where
  scheme : String
  host : String
  path : String
  query : String
  fragment : String
deriving DecidableEq, Repr

/-- An `href` attribute value as found in a page: either an absolute URL or a
root-relative reference (`/path`, optionally with query and fragment). These
are the two forms the crawlers exercise through `urllib.parse.urljoin`. -/
inductive Href where
  | absolute (u : URL)
  | siteRelative (path query fragment : String)
deriving DecidableEq, Repr

/-- Model of `urllib.parse.urljoin(base, href)` for the `Href` forms above:
an absolute reference replaces the base entirely; a root-relative reference
keeps the base's scheme and host. -/
def urljoin (base : URL) (h : Href) : URL :=
  match h with
  | .absolute u => u
  | .siteRelative p q f =>
    { scheme := base.scheme, host := base.host, path := p, query := q, fragment := f }

/-- Insertion into a Python dict modelled as an association list: assignment
`d[k] = v` replaces the binding of `k` if present and appends it otherwise
(Python dicts preserve insertion order). -/
def dictInsert {α β : Type} [DecidableEq α] : List (α × β) → α → β → List (α × β)
  | [], k, v => [(k, v)]
  | (k', v') :: t, k, v =>
    if k' = k then (k, v) :: t else (k', v') :: dictInsert t k v

/-- Lookup in a Python dict modelled as an association list. -/
def dictGet {α β : Type} [DecidableEq α] : List (α × β) → α → Option β
  | [], _ => none
  | (k, v) :: t, k' => if k = k' then some v else dictGet t k'

theorem dictInsert_fresh {α β : Type} [DecidableEq α] (l : List (α × β)) (k : α) (v : β)
    (h : k ∉ l.map Prod.fst) : dictInsert l k v = l ++ [(k, v)] := by
  induction l with
  | nil => rfl
  | cons p t ih =>
    obtain ⟨k', v'⟩ := p
    simp only [List.map_cons, List.mem_cons] at h
    push_neg at h
    simp only [dictInsert, List.cons_append]
    rw [if_neg (Ne.symm h.1), ih h.2]

theorem dictInsert_mem_self {α β : Type} [DecidableEq α] (l : List (α × β)) (k : α) (v : β) :
    (k, v) ∈ dictInsert l k v := by
  induction l with
  | nil => simp [dictInsert]
  | cons p t ih =>
    obtain ⟨k', v'⟩ := p
    by_cases h : k' = k
    · simp [dictInsert, h]
    · simp only [dictInsert, if_neg h, List.mem_cons]
      exact Or.inr ih

namespace SearchEngine

open PyStr

/-- The literal `"..."` that `SearchEngine.search` wraps around each snippet. -/
def dots : List Char := ['.', '.', '.']

/-- The loop body of `SearchEngine.search` (`websearch.py` lines 152-170) for
one `(url, content)` entry of `self.data`: on a substring match, assign
`results[url] = "..." + content[snippet_start:snippet_end] + "..."` where
`snippet_start = max(0, start_index - 50)` (natural subtraction) and
`snippet_end = min(len(content), end_index + 100)`. The two branches of the
Python `if not case_sensitive` compute the same expression up to the lowered
haystack, which is how they are rendered here. -/
def searchStep (q : List Char) (caseSensitive : Bool)
    (results : List (String × List Char)) (entry : String × List Char) :
    List (String × List Char) :=
  let url := entry.1
  let content := entry.2
  let haystack := if caseSensitive then content else pyLower content
  match pyFind haystack q with
  | none => results
  | some startIndex =>
    let endIndex := startIndex + q.length
    let snippetStart := startIndex - 50
    let snippetEnd := min content.length (endIndex + 100)
    dictInsert results url (dots ++ pySlice content snippetStart snippetEnd ++ dots)

/-- `SearchEngine.search` (`websearch.py` lines 137-171): the stored corpus is
the dict `self.data` (URL key, text content value, modelled as an association
list in insertion order with `List Char` content); the query is lowered once
when `case_sensitive` is false, and the loop over `self.data.items()` builds
the `results` dict. -/
def search (data : List (String × List Char)) (query : List Char)
    (caseSensitive : Bool) : List (String × List Char) :=
  let q := if caseSensitive then query else pyLower query
  data.foldl (searchStep q caseSensitive) []

/-- The per-entry result of one loop iteration, used to restate `search` as a
`filterMap` when the corpus keys are distinct (which they always are, the
corpus being a Python dict). -/
def matchEntry (q : List Char) (caseSensitive : Bool) (entry : String × List Char) :
    Option (String × List Char) :=
  let haystack := if caseSensitive then entry.2 else pyLower entry.2
  (pyFind haystack q).map (fun startIndex =>
    (entry.1, dots ++ pySlice entry.2 (startIndex - 50)
      (min entry.2.length (startIndex + q.length + 100)) ++ dots))

theorem searchStep_eq (q : List Char) (cs : Bool) (results : List (String × List Char))
    (entry : String × List Char) :
    searchStep q cs results entry =
      match matchEntry q cs entry with
      | none => results
      | some p => dictInsert results p.1 p.2 := by
  obtain ⟨url, content⟩ := entry
  simp only [searchStep, matchEntry]
  cases pyFind (if cs then content else pyLower content) q with
  | none => simp
  | some i => simp [Option.map_some']

theorem search_go_eq (q : List Char) (cs : Bool) (data : List (String × List Char))
    (acc : List (String × List Char))
    (hdisj : ∀ k ∈ data.map Prod.fst, k ∉ acc.map Prod.fst)
    (hnd : (data.map Prod.fst).Nodup) :
    data.foldl (searchStep q cs) acc = acc ++ data.filterMap (matchEntry q cs) := by
  induction data generalizing acc with
  | nil => simp
  | cons e rest ih =>
    obtain ⟨url, content⟩ := e
    simp only [List.foldl_cons, List.filterMap_cons]
    rw [searchStep_eq]
    simp only [List.map_cons, List.nodup_cons] at hnd
    cases hm : matchEntry q cs (url, content) with
    | none =>
      rw [ih acc (fun k hk => hdisj k (by simp [hk])) hnd.2]
    | some p =>
      dsimp only
      have hp1 : p.1 = url := by
        simp only [matchEntry] at hm
        rcases Option.map_eq_some'.mp hm with ⟨i, _, rfl⟩
        rfl
      have hfresh : p.1 ∉ acc.map Prod.fst := by
        rw [hp1]; exact hdisj url (by simp)
      rw [dictInsert_fresh acc p.1 p.2 hfresh]
      rw [ih (acc ++ [(p.1, p.2)]) ?hd hnd.2]
      · simp
      · intro k hk
        simp only [List.map_append, List.mem_append, List.map_cons]
        push_neg
        constructor
        · exact hdisj k (by simp [hk])
        · simp only [List.map_nil, List.mem_singleton, hp1]
          intro hkk
          rw [hkk] at hk
          exact hnd.1 hk

theorem search_eq_filterMap (data : List (String × List Char)) (query : List Char)
    (cs : Bool) (hnd : (data.map Prod.fst).Nodup) :
    search data query cs =
      data.filterMap (matchEntry (if cs then query else pyLower query) cs) := by
  simp only [search]
  rw [search_go_eq _ _ _ [] (by simp) hnd]
  simp

theorem dictGet_not_mem {α β : Type} [DecidableEq α] (l : List (α × β)) (k : α)
    (h : k ∉ l.map Prod.fst) : dictGet l k = none := by
  induction l with
  | nil => rfl
  | cons p t ih =>
    obtain ⟨k', v'⟩ := p
    simp only [List.map_cons, List.mem_cons] at h
    push_neg at h
    simp only [dictGet, if_neg (Ne.symm h.1)]
    exact ih h.2

theorem matchEntry_key (q : List Char) (cs : Bool) (e : String × List Char)
    (p : String × List Char) (h : matchEntry q cs e = some p) : p.1 = e.1 := by
  simp only [matchEntry] at h
  rcases Option.map_eq_some'.mp h with ⟨i, _, rfl⟩
  rfl

theorem searchKeys_sublist (q : List Char) (cs : Bool) :
    ∀ data : List (String × List Char),
      ((data.filterMap (matchEntry q cs)).map Prod.fst).Sublist (data.map Prod.fst) := by
  intro data
  induction data with
  | nil => simp
  | cons e rest ih =>
    simp only [List.filterMap_cons]
    cases hm : matchEntry q cs e with
    | none => simp only [List.map_cons]; exact ih.cons _
    | some p =>
      simp only [List.map_cons, matchEntry_key q cs e p hm]
      exact ih.cons₂ _

theorem dictGet_filterMap (q : List Char) (cs : Bool) :
    ∀ (data : List (String × List Char)) (url : String) (content : List Char),
      (data.map Prod.fst).Nodup → (url, content) ∈ data →
      dictGet (data.filterMap (matchEntry q cs)) url =
        (pyFind (if cs then content else pyLower content) q).map
          (fun i => dots ++ pySlice content (i - 50)
            (min content.length (i + q.length + 100)) ++ dots) := by
  intro data
  induction data with
  | nil => intro url content _ hmem; cases hmem
  | cons e rest ih =>
    intro url content hnd hmem
    obtain ⟨u0, c0⟩ := e
    simp only [List.map_cons, List.nodup_cons] at hnd
    simp only [List.filterMap_cons]
    rcases List.mem_cons.mp hmem with heq | hmem'
    · have hu : url = u0 := congrArg Prod.fst heq
      have hc : content = c0 := congrArg Prod.snd heq
      subst hu
      subst hc
      cases hf : pyFind (if cs then content else pyLower content) q with
      | none =>
        simp only [matchEntry, hf, Option.map_none']
        rw [dictGet_not_mem]
        intro hk
        exact hnd.1 ((searchKeys_sublist q cs rest).subset hk)
      | some i =>
        simp only [matchEntry, hf, Option.map_some']
        simp [dictGet]
    · have hne : u0 ≠ url := by
        intro hh
        exact hnd.1 (hh ▸ List.mem_map.mpr ⟨(url, content), hmem', rfl⟩)
      cases hm : matchEntry q cs (u0, c0) with
      | none => exact ih url content hnd.2 hmem'
      | some p =>
        have hp1 : p.1 = u0 := matchEntry_key q cs _ p hm
        simp only [dictGet, hp1, if_neg hne]
        exact ih url content hnd.2 hmem'

theorem dictGet_search (data : List (String × List Char)) (query : List Char)
    (cs : Bool) (url : String) (content : List Char)
    (hnd : (data.map Prod.fst).Nodup) (hmem : (url, content) ∈ data) :
    dictGet (search data query cs) url =
      (pyFind (if cs then content else pyLower content)
          (if cs then query else pyLower query)).map
        (fun i => dots ++ pySlice content (i - 50)
          (min content.length (i + query.length + 100)) ++ dots) := by
  rw [search_eq_filterMap data query cs hnd]
  have h := dictGet_filterMap (if cs then query else pyLower query) cs data url content hnd hmem
  rw [h]
  cases cs <;> simp [pyLower_length]

end SearchEngine

namespace WebScraper

/-- A successfully fetched and parsed page, abstracting the HTTP transport and
BeautifulSoup: `text` is the clean-text extraction that `scrape_page` computes
(join of `soup.stripped_strings` after dropping script/style subtrees) and
`hrefs` are the values of the `href` attributes of all `a[href]` tags, in
document order, as consumed by `_extract_links`. -/
structure Page where
  text : String
  hrefs : List Href
deriving DecidableEq, Repr

/-- The deterministic network: `none` models a `RequestException` or non-2xx
response (which `_get_page_content` turns into `None`), as well as an empty
body (which the `if page_content:` / `if content:` truthiness checks treat the
same way). `scrape_page` re-fetches the same URL and, the network being
deterministic here, sees the same page. -/
def Web := URL → Option Page

/-- Constructor parameters of `WebScraper.__init__` that the crawl logic
reads; `self.domain = urlparse(start_url).netloc`. -/
structure Config where
  startUrl : URL
  maxDepth : Nat
deriving DecidableEq, Repr

/-- `self.domain` as computed in `__init__`. -/
def Config.domain (cfg : Config) : String := cfg.startUrl.host

/-- Mutable state of one crawl run: `queue` is `self.queue` (FIFO of
`(URL, depth)` pairs), `visited` is `self.visited`, `scraped` is
`self.scraped_data` (a dict, so an insertion-ordered association list), and
`fetchLog` records every `(url, depth)` task actually handed to
`_get_page_content` — the observable trace of fetch attempts. -/
structure State where
  queue : List (URL × Nat)
  visited : List URL
  scraped : List (URL × String)
  fetchLog : List (URL × Nat)
deriving DecidableEq, Repr

/-- Initial state built by `__init__`: `self.queue = deque([(start_url, 0)])`,
everything else empty. -/
def initState (cfg : Config) : State :=
  { queue := [(cfg.startUrl, 0)], visited := [], scraped := [], fetchLog := [] }

/-- `_extract_links` (`websearch.py` lines 52-70): for every `a[href]` tag,
resolve against the current URL and keep the result iff its netloc equals
`self.domain` and it is not already in `self.visited`, preserving order. -/
def extractLinks (hrefs : List Href) (currentUrl : URL) (domain : String)
    (visited : List URL) : List URL :=
  (hrefs.map (urljoin currentUrl)).filter
    (fun u => u.host = domain ∧ u ∉ visited)

/-- One iteration of the `while self.queue:` loop of `crawl` (`websearch.py`
lines 98-120): pop the head task; skip it if already visited or deeper than
`max_depth`; otherwise mark it visited, fetch it, store the extracted text if
non-empty, and when `depth < max_depth` append each discovered in-domain,
unvisited link with depth `depth + 1`. On a failed fetch nothing is stored
and nothing is enqueued. An empty queue leaves the state unchanged. -/
def crawlStep (web : Web) (cfg : Config) (s : State) : State :=
  match s.queue with
  | [] => s
  | (currentUrl, depth) :: rest =>
    if currentUrl ∈ s.visited ∨ depth > cfg.maxDepth then
      { s with queue := rest }
    else
      let s1 : State :=
        { queue := rest
          visited := s.visited ++ [currentUrl]
          scraped := s.scraped
          fetchLog := s.fetchLog ++ [(currentUrl, depth)] }
      match web currentUrl with
      | none => s1
      | some page =>
        let s2 : State :=
          if page.text ≠ "" then
            { s1 with scraped := dictInsert s1.scraped currentUrl page.text }
          else s1
        if depth < cfg.maxDepth then
          { s2 with queue := s2.queue ++
              ((extractLinks page.hrefs currentUrl cfg.domain s2.visited).filter
                (fun link => link ∉ s2.visited)).map (fun link => (link, depth + 1)) }
        else s2

/-- The `while self.queue:` loop of `crawl`, run for at most `fuel`
iterations; the loop exits when the queue is empty. -/
def crawlLoop (web : Web) (cfg : Config) : Nat → State → State
  | 0, s => s
  | fuel + 1, s =>
    match s.queue with
    | [] => s
    | _ :: _ => crawlLoop web cfg fuel (crawlStep web cfg s)

/-- The crawl states reachable after `n` loop iterations from the initial
state of `crawl`. -/
def crawlRun (web : Web) (cfg : Config) (n : Nat) : State :=
  crawlLoop web cfg n (initState cfg)

theorem crawlLoop_preserves (web : Web) (cfg : Config) (P : State → Prop)
    (hstep : ∀ s, P s → P (crawlStep web cfg s)) :
    ∀ fuel s, P s → P (crawlLoop web cfg fuel s) := by
  intro fuel
  induction fuel with
  | zero => intro s hs; exact hs
  | succ f ih =>
    intro s hs
    simp only [crawlLoop]
    match hq : s.queue with
    | [] => exact hs
    | _ :: _ => exact ih _ (hstep s hs)

/-- Invariant used for the depth bound: every pending task and every task
already handed to the fetcher sits at depth at most `max_depth`. -/
def DepthInv (cfg : Config) (s : State) : Prop :=
  (∀ t ∈ s.queue, t.2 ≤ cfg.maxDepth) ∧ (∀ t ∈ s.fetchLog, t.2 ≤ cfg.maxDepth)

theorem crawlStep_depthInv (web : Web) (cfg : Config) (s : State)
    (h : DepthInv cfg s) : DepthInv cfg (crawlStep web cfg s) := by
  obtain ⟨hq, hf⟩ := h
  unfold crawlStep
  split
  · exact ⟨hq, hf⟩
  · rename_i u d rest hqueue
    have hrest : ∀ t ∈ rest, t.2 ≤ cfg.maxDepth := by
      intro t ht; exact hq t (by rw [hqueue]; exact List.mem_cons_of_mem _ ht)
    have hd' : (u, d) ∈ s.queue := by rw [hqueue]; exact List.mem_cons_self _ _
    have hd : d ≤ cfg.maxDepth := hq _ hd'
    have hf1 : ∀ t ∈ s.fetchLog ++ [(u, d)], t.2 ≤ cfg.maxDepth := by
      intro t ht
      rcases List.mem_append.mp ht with h1 | h1
      · exact hf t h1
      · simp only [List.mem_singleton] at h1; subst h1; exact hd
    split
    · exact ⟨hrest, hf⟩
    · split
      · exact ⟨hrest, hf1⟩
      · split <;> split
        all_goals refine ⟨?_, hf1⟩
        all_goals intro t ht
        all_goals first
          | (rcases List.mem_append.mp ht with h1 | h1
             · exact hrest t h1
             · rcases List.mem_map.mp h1 with ⟨l, _, rfl⟩
               show d + 1 ≤ cfg.maxDepth
               omega)
          | exact hrest t ht

/-- Invariant for domain scoping: every pending task and every fetched task
has the crawl domain as its host. -/
def HostInv (cfg : Config) (s : State) : Prop :=
  (∀ t ∈ s.queue, t.1.host = cfg.domain) ∧ (∀ t ∈ s.fetchLog, t.1.host = cfg.domain)

theorem crawlStep_hostInv (web : Web) (cfg : Config) (s : State)
    (h : HostInv cfg s) : HostInv cfg (crawlStep web cfg s) := by
  obtain ⟨hq, hf⟩ := h
  unfold crawlStep
  split
  · exact ⟨hq, hf⟩
  · rename_i u d rest hqueue
    have hrest : ∀ t ∈ rest, t.1.host = cfg.domain := by
      intro t ht; exact hq t (by rw [hqueue]; exact List.mem_cons_of_mem _ ht)
    have hu : u.host = cfg.domain :=
      hq (u, d) (by rw [hqueue]; exact List.mem_cons_self _ _)
    have hf1 : ∀ t ∈ s.fetchLog ++ [(u, d)], t.1.host = cfg.domain := by
      intro t ht
      rcases List.mem_append.mp ht with h1 | h1
      · exact hf t h1
      · simp only [List.mem_singleton] at h1; subst h1; exact hu
    split
    · exact ⟨hrest, hf⟩
    · split
      · exact ⟨hrest, hf1⟩
      · split <;> split
        all_goals refine ⟨?_, hf1⟩
        all_goals intro t ht
        all_goals first
          | (rcases List.mem_append.mp ht with h1 | h1
             · exact hrest t h1
             · rcases List.mem_map.mp h1 with ⟨l, hl, rfl⟩
               have hl1 := (List.mem_filter.mp hl).1
               simp only [extractLinks, List.mem_filter, decide_eq_true_eq] at hl1
               exact hl1.2.1)
          | exact hrest t ht

/-- Invariant for at-most-once fetching: the fetch trace never repeats a URL,
and every fetched URL has been marked visited. -/
def FetchOnceInv (s : State) : Prop :=
  (s.fetchLog.map Prod.fst).Nodup ∧ ∀ u ∈ s.fetchLog.map Prod.fst, u ∈ s.visited

theorem crawlStep_fetchOnceInv (web : Web) (cfg : Config) (s : State)
    (h : FetchOnceInv s) : FetchOnceInv (crawlStep web cfg s) := by
  obtain ⟨hnd, hsub⟩ := h
  unfold crawlStep
  split
  · exact ⟨hnd, hsub⟩
  · rename_i u d rest hqueue
    split
    · exact ⟨hnd, hsub⟩
    · rename_i hcond
      have hunotvis : u ∉ s.visited := fun hv => hcond (Or.inl hv)
      have hnd1 : ((s.fetchLog ++ [(u, d)]).map Prod.fst).Nodup := by
        simp only [List.map_append, List.map_cons, List.map_nil]
        apply List.Nodup.append hnd (by simp)
        intro x hx hy
        simp only [List.mem_singleton] at hy
        subst hy
        exact hunotvis (hsub x hx)
      have hsub1 : ∀ v ∈ (s.fetchLog ++ [(u, d)]).map Prod.fst,
          v ∈ s.visited ++ [u] := by
        intro v hv
        simp only [List.map_append, List.map_cons, List.map_nil, List.mem_append,
          List.mem_singleton] at hv ⊢
        rcases hv with h1 | h1
        · exact Or.inl (hsub v h1)
        · exact Or.inr h1
      split
      · exact ⟨hnd1, hsub1⟩
      · split <;> split
        all_goals exact ⟨hnd1, hsub1⟩

/-- Invariant tying the stored corpus to the network: every stored record
comes from a URL whose fetch succeeded with that exact extracted text, and
the text is non-empty. -/
def ScrapedInv (web : Web) (s : State) : Prop :=
  ∀ p ∈ s.scraped, ∃ page, web p.1 = some page ∧ page.text = p.2 ∧ page.text ≠ ""

theorem mem_dictInsert {α β : Type} [DecidableEq α] (l : List (α × β)) (k : α) (v : β)
    (p : α × β) (h : p ∈ dictInsert l k v) : p ∈ l ∨ p = (k, v) := by
  induction l with
  | nil => simpa [dictInsert] using h
  | cons q t ih =>
    obtain ⟨k', v'⟩ := q
    by_cases hk : k' = k
    · simp only [dictInsert, if_pos hk, List.mem_cons] at h
      rcases h with h1 | h1
      · exact Or.inr h1
      · exact Or.inl (List.mem_cons_of_mem _ h1)
    · simp only [dictInsert, if_neg hk, List.mem_cons] at h
      rcases h with h1 | h1
      · exact Or.inl (by simp [h1])
      · rcases ih h1 with h2 | h2
        · exact Or.inl (List.mem_cons_of_mem _ h2)
        · exact Or.inr h2

theorem crawlStep_scrapedInv (web : Web) (cfg : Config) (s : State)
    (h : ScrapedInv web s) : ScrapedInv web (crawlStep web cfg s) := by
  unfold crawlStep
  split
  · exact h
  · rename_i u d rest hqueue
    split
    · exact h
    · split
      · exact h
      · rename_i page hpage
        split <;> split
        all_goals intro p hp
        all_goals first
          | (rename_i htext _
             rcases mem_dictInsert _ _ _ _ hp with h1 | h1
             · exact h p h1
             · subst h1
               exact ⟨page, hpage, rfl, htext⟩)
          | exact h p hp

theorem crawlStep_fail (web : Web) (cfg : Config) (s : State) (u : URL) (d : Nat)
    (rest : List (URL × Nat)) (hq : s.queue = (u, d) :: rest)
    (hv : u ∉ s.visited) (hd : d ≤ cfg.maxDepth) (hw : web u = none) :
    crawlStep web cfg s =
      { queue := rest, visited := s.visited ++ [u], scraped := s.scraped,
        fetchLog := s.fetchLog ++ [(u, d)] } := by
  unfold crawlStep
  rw [hq]
  dsimp only
  rw [if_neg (by push_neg; exact ⟨hv, by omega⟩)]
  rw [hw]

theorem crawlStep_fetch_at_maxDepth (web : Web) (cfg : Config) (s : State) (u : URL)
    (rest : List (URL × Nat)) (page : Page)
    (hq : s.queue = (u, cfg.maxDepth) :: rest) (hv : u ∉ s.visited)
    (hw : web u = some page) (htext : page.text ≠ "") :
    crawlStep web cfg s =
      { queue := rest, visited := s.visited ++ [u],
        scraped := dictInsert s.scraped u page.text,
        fetchLog := s.fetchLog ++ [(u, cfg.maxDepth)] } := by
  unfold crawlStep
  rw [hq]
  dsimp only
  rw [if_neg (by push_neg; exact ⟨hv, by omega⟩)]
  rw [hw]
  dsimp only
  rw [if_pos htext, if_neg (lt_irrefl cfg.maxDepth)]

end WebScraper

theorem foldl_preserves {α σ : Type} (P : σ → Prop) (f : σ → α → σ)
    (hf : ∀ st a, P st → P (f st a)) :
    ∀ (l : List α) (st : σ), P st → P (l.foldl f st) := by
  intro l
  induction l with
  | nil => intro st h; exact h
  | cons a t ih => intro st h; exact ih _ (hf st a h)

namespace SmartSearch

open PyStr

/-- A successfully fetched and parsed page for `OllamaWebCrawlerService`,
abstracting the HTTP transport and BeautifulSoup: `textContent` is the
space-join of the `get_text()` of all `p` and `div` tags, `titleTag` is
`soup.title.string` when a title element exists, `imageSrcs` are the `img`
source attributes already resolved to absolute form (the `urljoin` of the
external `urllib` capability), and `hrefs` are the `a[href]` values. -/
structure SPage where
  textContent : String
  titleTag : Option String
  imageSrcs : List String
  hrefs : List Href
deriving DecidableEq, Repr

/-- A row of the `web_pages` SQLite table (url key, content, title, images as
a comma-joined string; the unused `metadata` column is omitted). -/
structure SRecord where
  url : URL
  content : String
  title : String
  images : String
deriving DecidableEq, Repr

/-- `extract_content` (`smart_search.py` lines 106-123). -/
def extractContent (url : URL) (page : SPage) : SRecord :=
  { url := url
    content := page.textContent
    title := page.titleTag.getD "No Title"
    images := String.intercalate "," page.imageSrcs }

/-- `INSERT OR REPLACE INTO web_pages` keyed by `url`: replace the existing
row or append a new one. -/
def upsertRecord : List SRecord → SRecord → List SRecord
  | [], r => [r]
  | r' :: t, r => if r'.url = r.url then r :: t else r' :: upsertRecord t r

/-- Constructor parameters of `OllamaWebCrawlerService.__init__` read by the
crawl logic; `self.base_domain = urllib.parse.urlparse(base_url).netloc`. -/
structure SConfig where
  baseUrl : URL
  maxDepth : Nat
deriving DecidableEq, Repr

/-- `self.base_domain` as computed in `__init__`. -/
def SConfig.baseDomain (cfg : SConfig) : String := cfg.baseUrl.host

/-- `sanitize_url` (`smart_search.py` lines 85-92): re-parse the URL, keep
`scheme://netloc` and join with the parsed path; query and fragment are
dropped. (Defined by the source, though no call site in the file uses it.) -/
def sanitize_url (u : URL) : URL :=
  { scheme := u.scheme, host := u.host, path := u.path, query := "", fragment := "" }

/-- `is_valid_url` (`smart_search.py` lines 94-104): scheme in
`['http', 'https']`, netloc equal to the base domain, and URL not already
visited. -/
def is_valid_url (cfg : SConfig) (u : URL) (visited : List URL) : Bool :=
  decide ((u.scheme = "http" ∨ u.scheme = "https") ∧
    u.host = cfg.baseDomain ∧ u ∉ visited)

/-- The deterministic network for the service: `none` models a
`RequestException` or a bad status raised by `raise_for_status` (both caught
by the `except` clauses of `crawl_page`). -/
def SWeb := URL → Option SPage

/-- Mutable state of the service during one crawl: `visited` is
`self.visited_urls`, `store` is the `web_pages` table, and `fetchLog` records
every `(url, depth)` for which `requests.get` is actually issued. -/
structure SState where
  visited : List URL
  store : List SRecord
  fetchLog : List (URL × Nat)
deriving DecidableEq, Repr

/-- `crawl_page` (`smart_search.py` lines 125-173), with the bounded worker
pool sequentialized (one interleaving of the concurrent execution): return
immediately when past the depth bound or the URL fails `is_valid_url`.
`requests.get` is issued next, so the fetch attempt is recorded in the log
even when it raises: on a fetch error the exception is caught and the state
is otherwise unchanged — in particular the URL is left unvisited, since
`visited_urls.add` is only reached after a successful fetch and store.
On success, upsert the extracted record, mark the URL visited, and when
`current_depth < max_depth` recurse into every discovered link that passes
`is_valid_url` at submission time. `fuel` bounds the recursion depth of the
model. -/
def crawlPage (web : SWeb) (cfg : SConfig) :
    Nat → URL → Nat → SState → SState
  | 0, _, _, s => s
  | fuel + 1, url, depth, s =>
    if depth > cfg.maxDepth ∨ is_valid_url cfg url s.visited ≠ true then s
    else
      match web url with
      | none => { s with fetchLog := s.fetchLog ++ [(url, depth)] }
      | some page =>
        let s1 : SState :=
          { visited := s.visited ++ [url]
            store := upsertRecord s.store (extractContent url page)
            fetchLog := s.fetchLog ++ [(url, depth)] }
        if depth < cfg.maxDepth then
          let links := page.hrefs.map (urljoin url)
          (links.filter (fun l => is_valid_url cfg l s1.visited)).foldl
            (fun st l => crawlPage web cfg fuel l (depth + 1) st) s1
        else s1

/-- `start_crawling` (`smart_search.py` lines 176-183): crawl from the base
URL at depth `0`, starting from an empty visited set, store and fetch log. -/
def startCrawling (web : SWeb) (cfg : SConfig) (fuel : Nat) : SState :=
  crawlPage web cfg fuel cfg.baseUrl 0 { visited := [], store := [], fetchLog := [] }

theorem crawlPage_preserves (web : SWeb) (cfg : SConfig) (P : SState → Prop)
    (hupd : ∀ url depth s page,
      depth ≤ cfg.maxDepth →
      is_valid_url cfg url s.visited = true →
      web url = some page →
      P s →
      P { visited := s.visited ++ [url]
          store := upsertRecord s.store (extractContent url page)
          fetchLog := s.fetchLog ++ [(url, depth)] })
    (hfail : ∀ url depth (s : SState),
      depth ≤ cfg.maxDepth →
      is_valid_url cfg url s.visited = true →
      web url = none →
      P s →
      P { s with fetchLog := s.fetchLog ++ [(url, depth)] }) :
    ∀ fuel url depth s, P s → P (crawlPage web cfg fuel url depth s) := by
  intro fuel
  induction fuel with
  | zero => intro url depth s h; exact h
  | succ f ih =>
    intro url depth s h
    unfold crawlPage
    split
    · exact h
    · rename_i hcond
      push_neg at hcond
      obtain ⟨hdep, hvalid⟩ := hcond
      split
      · rename_i hpage
        exact hfail url depth s (by omega) hvalid hpage h
      · rename_i page hpage
        split
        · exact foldl_preserves P _ (fun st a hst => ih a (depth + 1) st hst) _ _
            (hupd url depth s page (by omega) hvalid hpage h)
        · exact hupd url depth s page (by omega) hvalid hpage h

theorem crawlPage_web_none (web : SWeb) (cfg : SConfig) (fuel : Nat) (url : URL)
    (depth : Nat) (s : SState) (hw : web url = none) :
    (crawlPage web cfg fuel url depth s).store = s.store ∧
    (crawlPage web cfg fuel url depth s).visited = s.visited := by
  cases fuel with
  | zero => exact ⟨rfl, rfl⟩
  | succ f =>
    unfold crawlPage
    split
    · exact ⟨rfl, rfl⟩
    · simp [hw]

theorem crawlPage_invalid (web : SWeb) (cfg : SConfig) (fuel : Nat) (url : URL)
    (depth : Nat) (s : SState) (hv : is_valid_url cfg url s.visited = false) :
    crawlPage web cfg fuel url depth s = s := by
  cases fuel with
  | zero => rfl
  | succ f =>
    unfold crawlPage
    rw [if_pos (Or.inr (by simp [hv]))]

theorem is_valid_url_iff (cfg : SConfig) (u : URL) (visited : List URL) :
    is_valid_url cfg u visited = true ↔
      ((u.scheme = "http" ∨ u.scheme = "https") ∧
        u.host = cfg.baseDomain ∧ u ∉ visited) := by
  simp [is_valid_url]

theorem crawlPage_fetchLog_le (web : SWeb) (cfg : SConfig) (fuel : Nat) (url : URL)
    (depth : Nat) (s : SState) (h : ∀ e ∈ s.fetchLog, e.2 ≤ cfg.maxDepth) :
    ∀ e ∈ (crawlPage web cfg fuel url depth s).fetchLog, e.2 ≤ cfg.maxDepth := by
  refine crawlPage_preserves web cfg (fun st => ∀ e ∈ st.fetchLog, e.2 ≤ cfg.maxDepth)
    ?_ ?_ fuel url depth s h
  · intro u d st page hd _ _ hst e he
    rcases List.mem_append.mp he with h1 | h1
    · exact hst e h1
    · simp only [List.mem_singleton] at h1; subst h1; exact hd
  · intro u d st hd _ _ hst e he
    rcases List.mem_append.mp he with h1 | h1
    · exact hst e h1
    · simp only [List.mem_singleton] at h1; subst h1; exact hd

theorem crawlPage_fetchLog_host (web : SWeb) (cfg : SConfig) (fuel : Nat) (url : URL)
    (depth : Nat) (s : SState) (h : ∀ e ∈ s.fetchLog, e.1.host = cfg.baseDomain) :
    ∀ e ∈ (crawlPage web cfg fuel url depth s).fetchLog, e.1.host = cfg.baseDomain := by
  refine crawlPage_preserves web cfg (fun st => ∀ e ∈ st.fetchLog, e.1.host = cfg.baseDomain)
    ?_ ?_ fuel url depth s h
  · intro u d st page _ hv _ hst e he
    rcases List.mem_append.mp he with h1 | h1
    · exact hst e h1
    · simp only [List.mem_singleton] at h1
      subst h1
      exact ((is_valid_url_iff cfg u st.visited).mp hv).2.1
  · intro u d st _ hv _ hst e he
    rcases List.mem_append.mp he with h1 | h1
    · exact hst e h1
    · simp only [List.mem_singleton] at h1
      subst h1
      exact ((is_valid_url_iff cfg u st.visited).mp hv).2.1

/-- The fetch attempts that succeeded: the GET was issued and did not raise.
A failed attempt leaves the URL unvisited, so only this successful part of
the fetch trace is deduplicated by the visited check. -/
def successFetches (web : SWeb) (s : SState) : List (URL × Nat) :=
  s.fetchLog.filter (fun e => (web e.1).isSome)

theorem crawlPage_successFetchOnce (web : SWeb) (cfg : SConfig) (fuel : Nat)
    (url : URL) (depth : Nat) (s : SState)
    (h : ((successFetches web s).map Prod.fst).Nodup ∧
      ∀ v ∈ (successFetches web s).map Prod.fst, v ∈ s.visited) :
    ((successFetches web (crawlPage web cfg fuel url depth s)).map Prod.fst).Nodup ∧
      ∀ v ∈ (successFetches web (crawlPage web cfg fuel url depth s)).map Prod.fst,
        v ∈ (crawlPage web cfg fuel url depth s).visited := by
  refine crawlPage_preserves web cfg
    (fun st => ((successFetches web st).map Prod.fst).Nodup ∧
      ∀ v ∈ (successFetches web st).map Prod.fst, v ∈ st.visited) ?_ ?_ fuel url depth s h
  · intro u d st page _ hv hpage hst
    obtain ⟨hnd, hsub⟩ := hst
    have hunotvis : u ∉ st.visited := ((is_valid_url_iff cfg u st.visited).mp hv).2.2
    have hkeep : (successFetches web
        { visited := st.visited ++ [u]
          store := upsertRecord st.store (extractContent u page)
          fetchLog := st.fetchLog ++ [(u, d)] }) =
        successFetches web st ++ [(u, d)] := by
      simp [successFetches, List.filter_append, hpage]
    rw [hkeep]
    constructor
    · simp only [List.map_append, List.map_cons, List.map_nil]
      apply List.Nodup.append hnd (by simp)
      intro x hx hy
      simp only [List.mem_singleton] at hy
      subst hy
      exact hunotvis (hsub x hx)
    · intro v hv'
      simp only [List.map_append, List.map_cons, List.map_nil, List.mem_append,
        List.mem_singleton] at hv' ⊢
      rcases hv' with h1 | h1
      · exact Or.inl (hsub v h1)
      · exact Or.inr h1
  · intro u d st _ _ hpage hst
    obtain ⟨hnd, hsub⟩ := hst
    have hdrop : (successFetches web { st with fetchLog := st.fetchLog ++ [(u, d)] }) =
        successFetches web st := by
      simp [successFetches, List.filter_append, hpage]
    rw [hdrop]
    exact ⟨hnd, hsub⟩

theorem mem_upsertRecord (l : List SRecord) (x r : SRecord)
    (h : r ∈ upsertRecord l x) : r ∈ l ∨ r = x := by
  induction l with
  | nil => simpa [upsertRecord] using h
  | cons q t ih =>
    by_cases hk : q.url = x.url
    · simp only [upsertRecord, if_pos hk, List.mem_cons] at h
      rcases h with h1 | h1
      · exact Or.inr h1
      · exact Or.inl (List.mem_cons_of_mem _ h1)
    · simp only [upsertRecord, if_neg hk, List.mem_cons] at h
      rcases h with h1 | h1
      · exact Or.inl (by simp [h1])
      · rcases ih h1 with h2 | h2
        · exact Or.inl (List.mem_cons_of_mem _ h2)
        · exact Or.inr h2

/-- The intent prompt `semantic_search` builds around the query (whitespace
normalized). -/
def intentPrompt (query : String) : String :=
  "Analyze the following search query and extract key semantic search terms: Query: " ++
    query ++
    " Provide a comma-separated list of key search terms that capture the query's intent."

/-- The per-result relevance prompt `semantic_search` builds (whitespace
normalized). -/
def contextPrompt (query title snippet : String) : String :=
  "Evaluate the relevance of this content to the query: " ++ query ++
    " Content Details: Title: " ++ title ++ " Content Snippet: " ++ snippet ++
    " Provide a brief relevance assessment and key insights."

/-- One `content LIKE '%term%'` disjunct of the interpolated `WHERE` clause:
SQLite `LIKE` is case-insensitive for ASCII, hence the case fold. Modelled
for terms without wildcard or quote characters, which is all the development
exercises. -/
def likeMatch (content : String) (term : List Char) : Bool :=
  PyStr.pyContains (PyStr.pyLower content.toList) (PyStr.pyLower term)

/-- An element of the list `semantic_search` returns. -/
structure SResult where
  url : URL
  title : String
  content : String
  images : List String
  relevance : String
deriving DecidableEq, Repr

/-- `semantic_search` (`smart_search.py` lines 185-248). The language-model
capability is the function `llm` from prompt text to completion text;
`ollama_request` returns `""` on any request error or non-200 response, so an
absent or failing capability is `llm` returning `""` on the prompts involved.
The completion is split on commas, each piece stripped and empty pieces
dropped; the surviving terms are interpolated into the SQL `WHERE` clause as
`LIKE` disjuncts. When the term list is empty the clause is the empty string
and SQLite rejects the query with a syntax error, which the enclosing
`except Exception` swallows, returning the empty list. -/
def semanticSearch (llm : String → String) (store : List SRecord)
    (query : String) (limit : Nat) : List SResult :=
  let semanticTerms := llm (intentPrompt query)
  let terms :=
    ((PyStr.pySplitOn ',' semanticTerms.toList).map PyStr.pyStrip).filter (fun t => t ≠ [])
  if terms = [] then []
  else
    ((store.filter (fun r => terms.any (fun t => likeMatch r.content t))).take limit).map
      (fun r =>
        { url := r.url, title := r.title, content := r.content
          images :=
            if r.images = "" then []
            else (PyStr.pySplitOn ',' r.images.toList).map String.mk
          relevance := llm (contextPrompt query r.title (String.mk (r.content.toList.take 500))) })

end SmartSearch

namespace Portal

open PyStr

/-- A node of the parsed HTML document consumed by `scrape_portal`: a text
node or an element with a tag and children, in document order. (The `href`
and `src` attributes feed only the `links` and `images` outputs, which the
content extraction never reads, so attributes are not modelled.) -/
inductive HNode where
  | text (s : String)
  | elem (tag : String) (children : List HNode)

/-- BeautifulSoup's `.stripped_strings`: every descendant text node stripped
of surrounding whitespace, in document order, empty results skipped. -/
def strippedStrings : HNode → List String
  | .text s => if s.trim = "" then [] else [s.trim]
  | .elem _ cs => cs.attach.flatMap (fun c => strippedStrings c.1)
termination_by n => sizeOf n
decreasing_by
  simp_wf
  have := List.sizeOf_lt_of_mem c.2
  omega

/-- `get_text(separator='\n', strip=True)` on a node. -/
def getText (n : HNode) : String := String.intercalate "\n" (strippedStrings n)

/-- Whether a node is a `div` element (the `parent.name == 'div'` test of the
upward walk in `scrape_portal`). -/
def isDivTag : HNode → Bool
  | .elem "div" _ => true
  | _ => false

/-- All text nodes of a document together with their ancestor chains, nearest
ancestor first: the strings `soup.find_all(string=...)` iterates over, paired
with the chain that `find_parent()` / `.parent` walks upward. -/
def textNodes (anc : List HNode) : HNode → List (String × List HNode)
  | .text s => [(s, anc)]
  | .elem t cs => cs.attach.flatMap (fun c => textNodes (HNode.elem t cs :: anc) c.1)
termination_by n => sizeOf n
decreasing_by
  simp_wf
  have := List.sizeOf_lt_of_mem c.2
  omega

/-- All `div` elements of the document in document order:
`soup.find_all('div')`. -/
def allDivs : HNode → List HNode
  | .text _ => []
  | .elem t cs =>
    (if t = "div" then [HNode.elem t cs] else []) ++
      cs.attach.flatMap (fun c => allDivs c.1)
termination_by n => sizeOf n
decreasing_by
  simp_wf
  have := List.sizeOf_lt_of_mem c.2
  omega

/-- The text nodes matching the `string=lambda text: text and
search_text.lower() in text.lower()` filter of `scrape_portal`, with their
ancestor chains. -/
def matchingTexts (doc : HNode) (searchText : String) : List (String × List HNode) :=
  (textNodes [] doc).filter
    (fun p => p.1 ≠ "" ∧ pyContains (pyLower p.1.toList) (pyLower searchText.toList) = true)

/-- The no-focus branch of `scrape_portal` (`websearch_specific.py` lines
58-65): the `get_text` of every `div`, skipping empty texts, aggregated into
the set `all_div_content`. A Python set is unordered, so it is modelled as a
duplicate-free list via `List.dedup`. -/
def allDivContent (doc : HNode) : List String :=
  List.dedup (((allDivs doc).map getText).filter (fun t => t ≠ ""))

/-- The content-extraction step of `scrape_portal` (`websearch_specific.py`
lines 46-65), producing `scraped_data['content']`: with a truthy focus string
(`if search_text:` — the empty string is falsy), the `get_text` of the
nearest enclosing `div` of each matching text node, aggregated into the set
`relevant_div_content`; otherwise the text of every non-empty `div`. -/
def portalContent (doc : HNode) (searchText : Option String) : List String :=
  match searchText with
  | some f =>
    if f = "" then allDivContent doc
    else
      List.dedup ((matchingTexts doc f).filterMap
        (fun p => (p.2.find? isDivTag).map getText))
  | none => allDivContent doc

end Portal

/-! Concrete scenario inputs used by the counterexamples and witnesses. -/

/-- Host shared by the concrete crawl scenarios. -/
def exHost : String := "example.com"

/-- Seed URL `http://example.com/`. -/
def exRoot : URL :=
  { scheme := "http", host := exHost, path := "/", query := "", fragment := "" }

/-- In-domain page `http://example.com/b`. -/
def exB : URL :=
  { scheme := "http", host := exHost, path := "/b", query := "", fragment := "" }

/-- In-domain page `http://example.com/err` whose fetch fails. -/
def exErr : URL :=
  { scheme := "http", host := exHost, path := "/err", query := "", fragment := "" }

/-- URL `http://example.com/a?x=1`. -/
def exQ1 : URL :=
  { scheme := "http", host := exHost, path := "/a", query := "x=1", fragment := "" }

/-- URL `http://example.com/a?x=2`: same resource as `exQ1` up to query. -/
def exQ2 : URL :=
  { scheme := "http", host := exHost, path := "/a", query := "x=2", fragment := "" }

/-- Seed with a non-http scheme: `ftp://example.com/`. -/
def badSeed : URL :=
  { scheme := "ftp", host := exHost, path := "/", query := "", fragment := "" }

/-- Crawl configuration with seed `exRoot` and `max_depth = 1`. -/
def exCfg : WebScraper.Config := { startUrl := exRoot, maxDepth := 1 }

/-- Crawl configuration with the invalid seed. -/
def cfgBad : WebScraper.Config := { startUrl := badSeed, maxDepth := 1 }

/-- Network where the seed page links to `/b` twice. -/
def exWebC2 : WebScraper.Web := fun u =>
  if u = exRoot then
    some { text := "root text",
           hrefs := [.siteRelative "/b" "" "", .siteRelative "/b" "" ""] }
  else if u = exB then some { text := "b text", hrefs := [] }
  else none

/-- Network where the seed page links to `/b` and to `/err`, and the fetch of
`/err` fails (timeout / network error / non-2xx status). -/
def exWebC4 : WebScraper.Web := fun u =>
  if u = exRoot then
    some { text := "root text",
           hrefs := [.siteRelative "/b" "" "", .siteRelative "/err" "" ""] }
  else if u = exB then some { text := "b text", hrefs := [] }
  else none

/-- Network where the seed page links to the two query-variants of `/a`. -/
def exWebC5 : WebScraper.Web := fun u =>
  if u = exRoot then
    some { text := "root text", hrefs := [.absolute exQ1, .absolute exQ2] }
  else if u = exQ1 ∨ u = exQ2 then some { text := "leaf text", hrefs := [] }
  else none

/-- Network where every fetch fails. -/
def webEmpty : WebScraper.Web := fun _ => none

/-- Service network where every fetch fails. -/
def swebEmpty : SmartSearch.SWeb := fun _ => none

/-- Service network where the seed page links twice to `/err`, whose fetch
fails. -/
def swebFailTwice : SmartSearch.SWeb := fun u =>
  if u = exRoot then
    some { textContent := "root text", titleTag := some "Root", imageSrcs := [],
           hrefs := [.siteRelative "/err" "" "", .siteRelative "/err" "" ""] }
  else none

/-- Service crawl configuration with seed `exRoot` and `max_depth = 1`. -/
def exSCfg : SmartSearch.SConfig := { baseUrl := exRoot, maxDepth := 1 }

/-- Claim C2: the claim states that a URL is added to the `VisitedSet` at the
moment its task is accepted into the frontier, so that no URL is ever
enqueued twice. The code adds URLs to `visited` only when the task is popped
(`websearch.py` line 105), so a page linking to `/b` twice enqueues
`(exB, 1)` twice while `exB` is still absent from `visited`. -/
theorem claim_C2_counterexample :
    (WebScraper.crawlStep exWebC2 exCfg (WebScraper.initState exCfg)).queue
        = [(exB, 1), (exB, 1)] ∧
    exB ∉ (WebScraper.crawlStep exWebC2 exCfg (WebScraper.initState exCfg)).visited := by
  decide

/-- Claim C2 as amended: visited-marking does not happen at frontier-accept
time in either crawler, so a URL may be enqueued or submitted more than once.
In `WebScraper.crawl` a URL is marked visited at dequeue time, just before
its fetch, so every URL is fetched at most once: the fetch trace never
repeats a URL and every fetched URL is marked visited. In
`OllamaWebCrawlerService.crawl_page` a URL is marked visited only after a
successful fetch and store, so only the successful part of the fetch trace
is at-most-once (never repeating a URL, every such URL marked visited);
a URL whose fetch fails stays unvisited and its GET is re-issued when the
crawl reaches it again, as the seed page linking twice to the failing
`/err` shows concretely. -/
theorem claim_C2_fetch_at_most_once :
    (∀ (web : WebScraper.Web) (cfg : WebScraper.Config) (n : Nat),
      ((WebScraper.crawlRun web cfg n).fetchLog.map Prod.fst).Nodup ∧
      ∀ v ∈ (WebScraper.crawlRun web cfg n).fetchLog.map Prod.fst,
        v ∈ (WebScraper.crawlRun web cfg n).visited) ∧
    (∀ (sweb : SmartSearch.SWeb) (scfg : SmartSearch.SConfig) (fuel : Nat)
        (url : URL) (depth : Nat) (s : SmartSearch.SState),
      (((SmartSearch.successFetches sweb s).map Prod.fst).Nodup ∧
        ∀ v ∈ (SmartSearch.successFetches sweb s).map Prod.fst, v ∈ s.visited) →
      ((SmartSearch.successFetches sweb
          (SmartSearch.crawlPage sweb scfg fuel url depth s)).map Prod.fst).Nodup ∧
      ∀ v ∈ (SmartSearch.successFetches sweb
          (SmartSearch.crawlPage sweb scfg fuel url depth s)).map Prod.fst,
        v ∈ (SmartSearch.crawlPage sweb scfg fuel url depth s).visited) ∧
    ((SmartSearch.crawlPage swebFailTwice exSCfg 2 exRoot 0
        { visited := [], store := [], fetchLog := [] }).fetchLog
        = [(exRoot, 0), (exErr, 1), (exErr, 1)] ∧
      exErr ∉ (SmartSearch.crawlPage swebFailTwice exSCfg 2 exRoot 0
        { visited := [], store := [], fetchLog := [] }).visited) := by
  refine ⟨?_, ?_, ?_⟩
  · intro web cfg n
    exact WebScraper.crawlLoop_preserves web cfg WebScraper.FetchOnceInv
      (fun s hs => WebScraper.crawlStep_fetchOnceInv web cfg s hs) n
      (WebScraper.initState cfg) ⟨by simp [WebScraper.initState], by simp [WebScraper.initState]⟩
  · intro sweb scfg fuel url depth s h
    exact SmartSearch.crawlPage_successFetchOnce sweb scfg fuel url depth s h
  · constructor <;> decide

/-- Witness for the amended claim C2 at concrete scenarios: the
two-links-to-`/b` crawl fetches each URL once, and the successful fetches
of the failing-`/err` service crawl never repeat. -/
theorem claim_C2_fetch_at_most_once_witness :
    ((WebScraper.crawlRun exWebC2 exCfg 3).fetchLog.map Prod.fst).Nodup ∧
    ((SmartSearch.successFetches swebFailTwice
        (SmartSearch.crawlPage swebFailTwice exSCfg 2 exRoot 0
          { visited := [], store := [], fetchLog := [] })).map Prod.fst).Nodup := by
  constructor
  · exact (claim_C2_fetch_at_most_once.1 exWebC2 exCfg 3).1
  · exact (claim_C2_fetch_at_most_once.2.1 swebFailTwice exSCfg 2 exRoot 0
      { visited := [], store := [], fetchLog := [] } (by simp [SmartSearch.successFetches])).1

/-- Claim C3: depth bound is inclusive — in the `WebScraper` crawl every
pending task and every task handed to the fetcher has depth at most
`max_depth`; a head task at exactly `max_depth` (unvisited, fetch succeeding
with non-empty text) is still fetched and stored but spawns no successors;
and in the `OllamaWebCrawlerService` crawl every fetched task likewise has
depth at most `max_depth`. -/
theorem claim_C3_depth_bound_inclusive :
    (∀ (web : WebScraper.Web) (cfg : WebScraper.Config) (n : Nat),
      (∀ t ∈ (WebScraper.crawlRun web cfg n).queue, t.2 ≤ cfg.maxDepth) ∧
      (∀ t ∈ (WebScraper.crawlRun web cfg n).fetchLog, t.2 ≤ cfg.maxDepth)) ∧
    (∀ (web : WebScraper.Web) (cfg : WebScraper.Config) (s : WebScraper.State)
        (u : URL) (rest : List (URL × Nat)) (page : WebScraper.Page),
      s.queue = (u, cfg.maxDepth) :: rest → u ∉ s.visited → web u = some page →
      page.text ≠ "" →
      (u, cfg.maxDepth) ∈ (WebScraper.crawlStep web cfg s).fetchLog ∧
      (u, page.text) ∈ (WebScraper.crawlStep web cfg s).scraped ∧
      (WebScraper.crawlStep web cfg s).queue = rest) ∧
    (∀ (sweb : SmartSearch.SWeb) (scfg : SmartSearch.SConfig) (fuel : Nat)
        (url : URL) (depth : Nat) (s : SmartSearch.SState),
      (∀ e ∈ s.fetchLog, e.2 ≤ scfg.maxDepth) →
      ∀ e ∈ (SmartSearch.crawlPage sweb scfg fuel url depth s).fetchLog,
        e.2 ≤ scfg.maxDepth) := by
  refine ⟨?_, ?_, ?_⟩
  · intro web cfg n
    refine WebScraper.crawlLoop_preserves web cfg (WebScraper.DepthInv cfg)
      (fun s hs => WebScraper.crawlStep_depthInv web cfg s hs) n
      (WebScraper.initState cfg) ⟨?_, by simp [WebScraper.initState]⟩
    intro t ht
    simp only [WebScraper.initState, List.mem_singleton] at ht
    subst ht
    exact Nat.zero_le _
  · intro web cfg s u rest page hq hv hw ht
    rw [WebScraper.crawlStep_fetch_at_maxDepth web cfg s u rest page hq hv hw ht]
    exact ⟨by simp, dictInsert_mem_self _ _ _, rfl⟩
  · intro sweb scfg fuel url depth s h
    exact SmartSearch.crawlPage_fetchLog_le sweb scfg fuel url depth s h

/-- Witness for claim C3: at `max_depth = 1`, the pending task `(exB, 1)` sits
at the bound, is fetched and stored when popped, and spawns nothing. -/
theorem claim_C3_depth_bound_inclusive_witness :
    (exB, 1) ∈ (WebScraper.crawlStep exWebC2 exCfg
      { queue := [(exB, 1)], visited := [exRoot], scraped := [], fetchLog := [] }).fetchLog ∧
    (exB, "b text") ∈ (WebScraper.crawlStep exWebC2 exCfg
      { queue := [(exB, 1)], visited := [exRoot], scraped := [], fetchLog := [] }).scraped ∧
    (WebScraper.crawlStep exWebC2 exCfg
      { queue := [(exB, 1)], visited := [exRoot], scraped := [], fetchLog := [] }).queue = [] := by
  exact claim_C3_depth_bound_inclusive.2.1 exWebC2 exCfg
    { queue := [(exB, 1)], visited := [exRoot], scraped := [], fetchLog := [] }
    exB [] { text := "b text", hrefs := [] } (by decide) (by decide) (by decide) (by decide)

/-- Claim C4: a failed fetch (timeout, network error, or non-2xx status,
i.e. `web u = none`) never yields a stored record for that URL; the
`WebScraper` loop drops the failed task and proceeds with exactly the
remaining frontier entries; and the `OllamaWebCrawlerService` catches the
exception and returns with its store and visited set unchanged (the failed
GET is still recorded in the fetch trace), so siblings continue to be
processed. -/
theorem claim_C4_fetch_failure_page_local :
    (∀ (web : WebScraper.Web) (cfg : WebScraper.Config) (n : Nat) (u : URL),
      web u = none → u ∉ (WebScraper.crawlRun web cfg n).scraped.map Prod.fst) ∧
    (∀ (web : WebScraper.Web) (cfg : WebScraper.Config) (s : WebScraper.State)
        (u : URL) (d : Nat) (rest : List (URL × Nat)),
      s.queue = (u, d) :: rest → u ∉ s.visited → d ≤ cfg.maxDepth → web u = none →
      WebScraper.crawlStep web cfg s =
        { queue := rest, visited := s.visited ++ [u], scraped := s.scraped,
          fetchLog := s.fetchLog ++ [(u, d)] }) ∧
    (∀ (sweb : SmartSearch.SWeb) (scfg : SmartSearch.SConfig) (fuel : Nat)
        (url : URL) (depth : Nat) (s : SmartSearch.SState),
      sweb url = none →
      (SmartSearch.crawlPage sweb scfg fuel url depth s).store = s.store ∧
      (SmartSearch.crawlPage sweb scfg fuel url depth s).visited = s.visited) := by
  refine ⟨?_, ?_, ?_⟩
  · intro web cfg n u hw hmem
    have hinv := WebScraper.crawlLoop_preserves web cfg (WebScraper.ScrapedInv web)
      (fun s hs => WebScraper.crawlStep_scrapedInv web cfg s hs) n
      (WebScraper.initState cfg) (by intro p hp; simp [WebScraper.initState] at hp)
    rcases List.mem_map.mp hmem with ⟨p, hp, hfst⟩
    rcases hinv p hp with ⟨page, hpage, _⟩
    rw [hfst, hw] at hpage
    cases hpage
  · intro web cfg s u d rest hq hv hd hw
    exact WebScraper.crawlStep_fail web cfg s u d rest hq hv hd hw
  · intro sweb scfg fuel url depth s hw
    exact SmartSearch.crawlPage_web_none sweb scfg fuel url depth s hw

/-- Witness for claim C4 at the concrete scenario where the fetch of `/err`
fails while the rest of the crawl proceeds. -/
theorem claim_C4_fetch_failure_page_local_witness :
    exErr ∉ (WebScraper.crawlRun exWebC4 exCfg 4).scraped.map Prod.fst ∧
    WebScraper.crawlStep exWebC4 exCfg
      { queue := [(exErr, 1)], visited := [exRoot], scraped := [], fetchLog := [] } =
      { queue := [], visited := [exRoot, exErr], scraped := [],
        fetchLog := [(exErr, 1)] } ∧
    (SmartSearch.crawlPage swebEmpty exSCfg 3 exRoot 0
      { visited := [], store := [], fetchLog := [] }).store = [] ∧
    (SmartSearch.crawlPage swebEmpty exSCfg 3 exRoot 0
      { visited := [], store := [], fetchLog := [] }).visited = [] := by
  refine ⟨claim_C4_fetch_failure_page_local.1 exWebC4 exCfg 4 exErr (by decide), ?_, ?_⟩
  · exact claim_C4_fetch_failure_page_local.2.1 exWebC4 exCfg
      { queue := [(exErr, 1)], visited := [exRoot], scraped := [], fetchLog := [] }
      exErr 1 [] (by decide) (by decide) (by decide) (by decide)
  · exact claim_C4_fetch_failure_page_local.2.2 swebEmpty exSCfg 3 exRoot 0
      { visited := [], store := [], fetchLog := [] } rfl

/-- Claim C5: the claim states that every URL in the `VisitedSet` and the
frontier is in normalized form (query and fragment stripped) and that two
URLs differing only in query are crawled at most once between them. The
crawlers never call `sanitize_url`: with a seed page linking to
`http://example.com/a?x=1` and `http://example.com/a?x=2` — equal under
`sanitize_url` — both variants are fetched, and `visited` holds a URL with a
non-empty query. -/
theorem claim_C5_counterexample :
    SmartSearch.sanitize_url exQ1 = SmartSearch.sanitize_url exQ2 ∧
    (exQ1, 1) ∈ (WebScraper.crawlRun exWebC5 exCfg 3).fetchLog ∧
    (exQ2, 1) ∈ (WebScraper.crawlRun exWebC5 exCfg 3).fetchLog ∧
    exQ1 ∈ (WebScraper.crawlRun exWebC5 exCfg 3).visited ∧
    exQ1.query ≠ "" := by
  decide

/-- Claim C5 as amended: `sanitize_url` does return the query- and
fragment-stripped normal form, but no crawl path applies it — a discovered
link enters the frontier exactly as resolved by `urljoin` (query and fragment
intact), filtered only by host equality and the visited check, so URLs
differing only in query or fragment are treated as distinct resources. -/
theorem claim_C5_no_normalization_applied :
    (∀ u : URL, SmartSearch.sanitize_url u =
      { scheme := u.scheme, host := u.host, path := u.path, query := "", fragment := "" }) ∧
    (∀ (hrefs : List Href) (cur : URL) (dom : String) (vis : List URL) (l : URL),
      l ∈ WebScraper.extractLinks hrefs cur dom vis ↔
        l ∈ hrefs.map (urljoin cur) ∧ l.host = dom ∧ l ∉ vis) := by
  constructor
  · intro u; rfl
  · intro hrefs cur dom vis l
    simp [WebScraper.extractLinks, List.mem_filter, and_assoc]

/-- Claim C6: `is_valid_url` accepts a URL iff its scheme is http or https,
its host equals the crawl domain exactly, and it is not already visited; and
in both crawlers a link whose host differs from the seed's host is never
enqueued nor fetched — every pending and fetched task of the `WebScraper`
run has the seed's host, and so does every fetch of the
`OllamaWebCrawlerService` crawl. -/
theorem claim_C6_domain_scoping :
    (∀ (scfg : SmartSearch.SConfig) (u : URL) (visited : List URL),
      SmartSearch.is_valid_url scfg u visited = true ↔
        ((u.scheme = "http" ∨ u.scheme = "https") ∧
          u.host = scfg.baseDomain ∧ u ∉ visited)) ∧
    (∀ (web : WebScraper.Web) (cfg : WebScraper.Config) (n : Nat),
      (∀ t ∈ (WebScraper.crawlRun web cfg n).queue, t.1.host = cfg.domain) ∧
      (∀ t ∈ (WebScraper.crawlRun web cfg n).fetchLog, t.1.host = cfg.domain)) ∧
    (∀ (sweb : SmartSearch.SWeb) (scfg : SmartSearch.SConfig) (fuel : Nat)
        (url : URL) (depth : Nat) (s : SmartSearch.SState),
      (∀ e ∈ s.fetchLog, e.1.host = scfg.baseDomain) →
      ∀ e ∈ (SmartSearch.crawlPage sweb scfg fuel url depth s).fetchLog,
        e.1.host = scfg.baseDomain) := by
  refine ⟨?_, ?_, ?_⟩
  · intro scfg u visited
    exact SmartSearch.is_valid_url_iff scfg u visited
  · intro web cfg n
    refine WebScraper.crawlLoop_preserves web cfg (WebScraper.HostInv cfg)
      (fun s hs => WebScraper.crawlStep_hostInv web cfg s hs) n
      (WebScraper.initState cfg) ⟨?_, by simp [WebScraper.initState]⟩
    intro t ht
    simp only [WebScraper.initState, List.mem_singleton] at ht
    subst ht
    rfl
  · intro sweb scfg fuel url depth s h
    exact SmartSearch.crawlPage_fetchLog_host sweb scfg fuel url depth s h

/-- Witness for claim C6: the queued task after one step of the concrete
crawl carries the seed's host, and `is_valid_url` accepts the concrete
in-domain unvisited URL. -/
theorem claim_C6_domain_scoping_witness :
    exB.host = exCfg.domain ∧ SmartSearch.is_valid_url exSCfg exB [] = true := by
  constructor
  · exact (claim_C6_domain_scoping.2.1 exWebC2 exCfg 1).1 (exB, 1) (by decide)
  · exact (claim_C6_domain_scoping.1 exSCfg exB []).mpr (by decide)

/-- Claim C8: the claim states that an invalid or non-http(s) seed makes the
run fail with a configuration error reported before any fetch, with no fetch
ever attempted. Neither crawler validates its seed: `WebScraper.crawl` on
the seed `ftp://example.com/` hands the seed straight to the fetcher (one
fetch is attempted) and then completes normally. -/
theorem claim_C8_counterexample :
    (WebScraper.crawlRun webEmpty cfgBad 2).fetchLog = [(badSeed, 0)] ∧
    (WebScraper.crawlRun webEmpty cfgBad 2).queue = [] := by
  decide

/-- Claim C8 as amended: there is no configuration validation —
`OllamaWebCrawlerService.crawl_page` silently skips a non-http(s) seed
(state unchanged: nothing fetched, nothing stored, no error value), while
`WebScraper.crawl` attempts the fetch of the invalid seed, treats the
failure as page-local, stores nothing, and runs to completion. -/
theorem claim_C8_no_seed_validation :
    (∀ (sweb : SmartSearch.SWeb) (scfg : SmartSearch.SConfig) (fuel : Nat)
        (u : URL) (d : Nat) (s : SmartSearch.SState),
      u.scheme ≠ "http" → u.scheme ≠ "https" →
      SmartSearch.crawlPage sweb scfg fuel u d s = s) ∧
    ((WebScraper.crawlRun webEmpty cfgBad 2).scraped = [] ∧
      (WebScraper.crawlRun webEmpty cfgBad 2).visited = [badSeed]) := by
  constructor
  · intro sweb scfg fuel u d s h1 h2
    apply SmartSearch.crawlPage_invalid
    simp only [SmartSearch.is_valid_url, decide_eq_false_iff_not]
    rintro ⟨h3 | h3, -, -⟩
    · exact h1 h3
    · exact h2 h3
  · constructor <;> decide

/-- Witness for the amended claim C8: the service crawl started at the
`ftp://` seed leaves the empty state untouched. -/
theorem claim_C8_no_seed_validation_witness :
    SmartSearch.crawlPage swebEmpty { baseUrl := badSeed, maxDepth := 1 } 2 badSeed 0
      { visited := [], store := [], fetchLog := [] } =
      { visited := [], store := [], fetchLog := [] } :=
  claim_C8_no_seed_validation.1 swebEmpty { baseUrl := badSeed, maxDepth := 1 } 2
    badSeed 0 { visited := [], store := [], fetchLog := [] } (by decide) (by decide)

/-- The absent or failing language-model capability: `ollama_request` returns
`""` for every prompt. -/
def exLLMFail : String → String := fun _ => ""

/-- A one-record store whose content contains the raw query `"hello"`. -/
def exSStore : List SmartSearch.SRecord :=
  [{ url := exRoot, content := "hello world", title := "Title", images := "" }]

/-- Claim C1: the claim states that when the language-model capability fails,
the search falls back to substring-matching the raw query and returns those
matches. With the failing capability every completion is `""`, the
decomposed term list is empty, the interpolated SQL is malformed, the
exception is swallowed, and `semantic_search` returns `[]` — even though a
stored record substring-matches the raw query `"hello"`. -/
theorem claim_C1_counterexample :
    SmartSearch.semanticSearch exLLMFail exSStore "hello" 5 = [] ∧
    SmartSearch.likeMatch "hello world" "hello".toList = true := by
  constructor
  · rfl
  · decide

/-- Claim C1 as amended: when the completion call fails or returns an empty
response, `semantic_search` does not raise — the malformed empty `WHERE`
clause error is caught — but it returns the empty result list for every
store, query, and limit; there is no fallback to matching the raw query. -/
theorem claim_C1_llm_failure_returns_empty (llm : String → String)
    (store : List SmartSearch.SRecord) (query : String) (limit : Nat)
    (h : llm (SmartSearch.intentPrompt query) = "") :
    SmartSearch.semanticSearch llm store query limit = [] := by
  simp only [SmartSearch.semanticSearch, h]
  rfl

/-- Witness for the amended claim C1 at a concrete store and query. -/
theorem claim_C1_llm_failure_returns_empty_witness :
    SmartSearch.semanticSearch exLLMFail
      [{ url := exB, content := "b text", title := "T", images := "" }] "any query" 3 = [] :=
  claim_C1_llm_failure_returns_empty exLLMFail
    [{ url := exB, content := "b text", title := "T", images := "" }] "any query" 3 rfl

/-- Claim C7: for every stored record whose content contains the query
(case-folded unless `case_sensitive`), `search` returns for that record's URL
the single snippet equal to the content slice from `max(0, firstMatchStart -
50)` (natural-number truncated subtraction) to `min(contentLength,
firstMatchEnd + 100)`, wrapped in `"..."` on both sides. -/
theorem claim_C7_snippet_window (data : List (String × List Char))
    (query : List Char) (cs : Bool) (url : String) (content : List Char) (i : Nat)
    (hnd : (data.map Prod.fst).Nodup) (hmem : (url, content) ∈ data)
    (hfind : PyStr.pyFind (if cs then content else PyStr.pyLower content)
      (if cs then query else PyStr.pyLower query) = some i) :
    dictGet (SearchEngine.search data query cs) url =
      some (SearchEngine.dots ++
        (content.drop (i - 50)).take
          (min content.length (i + query.length + 100) - (i - 50)) ++
        SearchEngine.dots) := by
  rw [SearchEngine.dictGet_search data query cs url content hnd hmem, hfind]
  rfl

/-- Witness for claim C7 at the spec's own example: content `"abcXYZdef"`,
query `"XYZ"`, window clamped to the whole string. -/
theorem claim_C7_snippet_window_witness :
    dictGet (SearchEngine.search [("u1", "abcXYZdef".toList)] "XYZ".toList false) "u1" =
      some ("...abcXYZdef...".toList) := by
  have h := claim_C7_snippet_window [("u1", "abcXYZdef".toList)] "XYZ".toList false
    "u1" "abcXYZdef".toList 3 (by decide) (by decide) (by decide)
  rw [h]
  decide

/-- Claim C10: `search` is keyed by URL — with distinct corpus keys the
result has no duplicate URLs, hence at most one result per stored URL — and
the single snippet is computed from the first occurrence of the query: the
matched index is an occurrence and every smaller index is not. -/
theorem claim_C10_one_result_per_url (data : List (String × List Char))
    (query : List Char) (cs : Bool) (hnd : (data.map Prod.fst).Nodup) :
    ((SearchEngine.search data query cs).map Prod.fst).Nodup ∧
    ∀ url content i, (url, content) ∈ data →
      PyStr.pyFind (if cs then content else PyStr.pyLower content)
        (if cs then query else PyStr.pyLower query) = some i →
      PyStr.occursAt (if cs then content else PyStr.pyLower content)
        (if cs then query else PyStr.pyLower query) i = true ∧
      (∀ j < i, PyStr.occursAt (if cs then content else PyStr.pyLower content)
        (if cs then query else PyStr.pyLower query) j = false) ∧
      ∃ snip, dictGet (SearchEngine.search data query cs) url = some snip := by
  constructor
  · rw [SearchEngine.search_eq_filterMap data query cs hnd]
    exact hnd.sublist (SearchEngine.searchKeys_sublist _ cs data)
  · intro url content i hmem hfind
    refine ⟨PyStr.pyFind_occursAt _ _ i hfind,
      fun j hj => PyStr.pyFind_first _ _ i hfind j hj, ?_⟩
    exact ⟨_, by
      rw [SearchEngine.dictGet_search data query cs url content hnd hmem, hfind]; rfl⟩

/-- Witness for claim C10 at the spec's scenario: content `"Hello World"`,
query `"hello"`, case-insensitive. -/
theorem claim_C10_one_result_per_url_witness :
    ((SearchEngine.search [("u1", "Hello World".toList)] "hello".toList false).map
      Prod.fst).Nodup ∧
    PyStr.occursAt (PyStr.pyLower "Hello World".toList)
      (PyStr.pyLower "hello".toList) 0 = true := by
  have h := claim_C10_one_result_per_url [("u1", "Hello World".toList)]
    "hello".toList false (by decide)
  exact ⟨h.1, (h.2 "u1" "Hello World".toList 0 (by decide) (by decide)).1⟩

/-- Claim C9: with a non-empty focus string the content extraction of
`scrape_portal` returns exactly the set (duplicate-free, characterized by
membership) of the `get_text` of the nearest enclosing `div` of each text
node containing the focus string case-insensitively; with no focus string it
returns the set of the non-empty `get_text` of every `div`. -/
theorem claim_C9_targeted_extraction (doc : Portal.HNode) (f : String) (hf : f ≠ "") :
    ((Portal.portalContent doc (some f)).Nodup ∧
      ∀ t, t ∈ Portal.portalContent doc (some f) ↔
        ∃ s anc, (s, anc) ∈ Portal.textNodes [] doc ∧ s ≠ "" ∧
          PyStr.pyContains (PyStr.pyLower s.toList) (PyStr.pyLower f.toList) = true ∧
          ∃ d, anc.find? Portal.isDivTag = some d ∧ Portal.getText d = t) ∧
    ((Portal.portalContent doc none).Nodup ∧
      ∀ t, t ∈ Portal.portalContent doc none ↔
        ∃ d, d ∈ Portal.allDivs doc ∧ Portal.getText d ≠ "" ∧ Portal.getText d = t) := by
  refine ⟨⟨?_, ?_⟩, ?_, ?_⟩
  · simp [Portal.portalContent, if_neg hf, List.nodup_dedup]
  · intro t
    simp only [Portal.portalContent, if_neg hf, List.mem_dedup, List.mem_filterMap,
      Portal.matchingTexts, List.mem_filter, Option.map_eq_some', decide_eq_true_eq]
    constructor
    · rintro ⟨⟨s, anc⟩, ⟨hmem, hcond⟩, d, hd, rfl⟩
      exact ⟨s, anc, hmem, hcond.1, hcond.2, d, hd, rfl⟩
    · rintro ⟨s, anc, hmem, h1, h2, d, hd, rfl⟩
      exact ⟨(s, anc), ⟨hmem, h1, h2⟩, d, hd, rfl⟩
  · simp [Portal.portalContent, Portal.allDivContent, List.nodup_dedup]
  · intro t
    simp only [Portal.portalContent, Portal.allDivContent, List.mem_dedup,
      List.mem_filter, List.mem_map, decide_eq_true_eq]
    constructor
    · rintro ⟨⟨d, hd, rfl⟩, hne⟩
      exact ⟨d, hd, hne, rfl⟩
    · rintro ⟨d, hd, hne, rfl⟩
      exact ⟨⟨d, hd, rfl⟩, hne⟩

/-- A concrete document with two `div` containers. -/
def exDoc : Portal.HNode :=
  .elem "[document]"
    [.elem "div" [.elem "p" [.text "Hello World"]],
     .elem "div" [.text "Other"]]

/-- Witness for claim C9 at the concrete document and focus `"hello"`. -/
theorem claim_C9_targeted_extraction_witness :
    (Portal.portalContent exDoc (some "hello")).Nodup ∧
    (Portal.portalContent exDoc none).Nodup :=
  ⟨(claim_C9_targeted_extraction exDoc "hello" (by decide)).1.1,
   (claim_C9_targeted_extraction exDoc "hello" (by decide)).2.1⟩
